import Mathlib

/-!
Verification of `brownie/network/event.py`.

We give a shallow embedding of the event-container model (`EventDict`,
`_EventItem`), the topic registry merge (`_get_topics`), the watcher sweep
(`EventWatcher._watch_loop`), subscription registration
(`EventWatcher.add_event_callback`), the stop/join protocol
(`EventWatcher.stop`) and legacy "ds-note" decoding (`_decode_ds_note`),
and prove the specified properties about them.
-/

namespace BrownieEvent

/-! ## Event container model: `EventDict` and `_EventItem`

An `_EventItem` is instantiated in two shapes by `EventDict.__init__`:
as a singleton wrapping one decoded record (an `OrderedDict` of
field-name/value pairs), and as a name-keyed group wrapping the list of
singleton items sharing one name.  We model the two shapes as two
structures.  Field values are modelled as strings (their concrete type is
irrelevant to the container logic). -/

/-- A decoded record: the `OrderedDict((x["name"], x["value"]) ...)` built
from one event's `data` list. -/
abbrev Rec := List (String × String)

/-- One element of the `events` list handed to `EventDict.__init__`
(as supplied by `eth_event.decode_logs` / `decode_trace`). -/
structure RawLogEvent where
  name : String
  address : String
  data : Rec
deriving DecidableEq

/-- Model of `_EventItem` in its singleton shape: `_ordered` holds one record. -/
structure EventItemS where
  name : String
  address : Option String
  records : List Rec
  pos : List Nat
deriving DecidableEq

/-- Model of `_EventItem` in its group shape: `_ordered` holds the singleton items
sharing one name. -/
structure EventGroupS where
  name : String
  address : Option String
  items : List EventItemS
  pos : List Nat
deriving DecidableEq

/-- The singleton `_EventItem(i["name"], i["address"], [OrderedDict(...)], (pos,))`. -/
def mkSingleItem (i : Nat) (e : RawLogEvent) : EventItemS :=
  { name := e.name, address := some e.address, records := [e.data], pos := [i] }

/-- The `self._ordered` list comprehension in `EventDict.__init__`. -/
def buildOrdered (events : List RawLogEvent) : List EventItemS :=
  events.enum.map (fun p => mkSingleItem p.1 p.2)

/-- The group `_EventItem(event.name, None, events, tuple(i.pos[0] for i in events))`
where `events = [i for i in self._ordered if i.name == event.name]`. -/
def mkGroup (all : List EventItemS) (n : String) : EventGroupS :=
  { name := n
    address := none
    items := all.filter (fun i => i.name == n)
    pos := (all.filter (fun i => i.name == n)).map (fun i => i.pos.headD 0) }

/-- The `for event in self._ordered` loop populating `self._dict`:
a group is added only when its name is not yet a key. -/
def buildDictAux (all : List EventItemS) :
    List EventItemS → List (String × EventGroupS) → List (String × EventGroupS)
  | [], acc => acc
  | e :: rest, acc =>
    if (acc.map Prod.fst).contains e.name then buildDictAux all rest acc
    else buildDictAux all rest (acc ++ [(e.name, mkGroup all e.name)])

def buildDict (l : List EventItemS) : List (String × EventGroupS) :=
  buildDictAux l l []

/-- The `EventDict` container: `_ordered` plus the derived `_dict`. -/
structure EventDictS where
  ordered : List EventItemS
  dict : List (String × EventGroupS)
deriving DecidableEq

/-- Model of `EventDict.__init__`. -/
def mkEventDict (events : List RawLogEvent) : EventDictS :=
  { ordered := buildOrdered events, dict := buildDict (buildOrdered events) }

/-- Model of `EventDict.__len__`. -/
def edLen (d : EventDictS) : Nat := d.ordered.length

/-- Key lookup in one record, as `OrderedDict.__getitem__` /
`__contains__` behave on our association-list model. -/
def recLookup (r : Rec) (k : String) : Option String :=
  (r.find? (fun p => p.1 == k)).map (fun p => p.2)

/-- Model of `_EventItem.__getitem__` with a string key, on a singleton item:
checks the plain key on `self._ordered[0]`, then the
`"{key} (indexed)"` variant; `none` models the `EventLookupError`
branch (and the unreachable `IndexError` when `_ordered` is empty). -/
def eventItemGetStr (it : EventItemS) (key : String) : Option String :=
  match it.records with
  | [] => none
  | r :: _ =>
    match recLookup r key with
    | some v => some v
    | none => recLookup r (key ++ " (indexed)")

/-- Model of `_EventItem.__contains__`: `name in self._ordered[0]` — only the raw
keys of the first record are consulted. -/
def eventItemContainsStr (it : EventItemS) (key : String) : Bool :=
  match it.records with
  | [] => false
  | r :: _ => (recLookup r key).isSome

/-! ## Topic registry: `_get_topics`

`_topics` is a dict from topic-hash string to a descriptor
`{name, inputs: [{name, type, indexed}]}`.  We model the dict as an
association list with unique keys, preserving insertion order (Python
dicts keep a key's original position on overwrite). -/

structure EventInput where
  name : String
  type : String
  indexed : Bool
deriving DecidableEq

structure TopicDesc where
  name : String
  inputs : List EventInput
deriving DecidableEq

abbrev TopicKey := String

abbrev TopicMap := List (TopicKey × TopicDesc)

def lookupTopic (reg : TopicMap) (k : TopicKey) : Option TopicDesc :=
  (reg.find? (fun p => p.1 == k)).map (fun p => p.2)

/-- Truthiness of `next((i for i in updated_topics[key]["inputs"] if i["indexed"]), False)`:
does the stored descriptor have an indexed input? -/
def hasIndexedInput (d : TopicDesc) : Bool :=
  d.inputs.any (fun i => i.indexed)

/-- Overwrite step `updated_topics[key] = value` on a present key: overwrite in place. -/
def setTopic (reg : TopicMap) (k : TopicKey) (v : TopicDesc) : TopicMap :=
  reg.map (fun p => if p.1 == k then (k, v) else p)

/-- The body of the `for key, value in topic_map.items()` loop in
`_get_topics`: insert an unseen hash; keep an identical descriptor;
overwrite only a stored descriptor with no indexed inputs. -/
def mergeTopicEntry (reg : TopicMap) (k : TopicKey) (v : TopicDesc) : TopicMap :=
  match lookupTopic reg k with
  | none => reg ++ [(k, v)]
  | some d => if d = v then reg else if hasIndexedInput d then reg else setTopic reg k v

/-- The whole merge loop of `_get_topics`, starting from a copy of
`_topics` and processing every entry of `topic_map`. -/
def mergeTopicMap (reg : TopicMap) (tm : TopicMap) : TopicMap :=
  tm.foldl (fun r p => mergeTopicEntry r p.1 p.2) reg

structure PersistError where
deriving DecidableEq

/-- Model of `_get_topics`, including the persistence step: when the merged map
differs from `_topics`, `_topics.update(updated_topics)` runs first and
then `json.dump` writes the snapshot; a failing dump (modelled by
`persistOk = false`) raises after the in-memory update.  The result is
(in-memory registry after the call, raised error or returned name map). -/
def getTopicsRun (topics : TopicMap) (tm : TopicMap) (persistOk : Bool) :
    TopicMap × Except PersistError (List (String × TopicKey)) :=
  let updated := mergeTopicMap topics tm
  if updated = topics then (topics, Except.ok (tm.map (fun p => (p.2.name, p.1))))
  else if persistOk then (updated, Except.ok (tm.map (fun p => (p.2.name, p.1))))
  else (updated, Except.error {})

/-! ## Watcher sweep: `EventWatcher._watch_loop`

One pass of the `while not self._kill` body.  Each target carries the
value of `elem.time_left` observed at this sweep and the outcome of
`elem.get_new_events()` (`Except.error` models an exception escaping the
poll).  The `for` loop walks the targets in order; an exception aborts
the remaining iterations; the `finally` block always filters out
non-repeating targets. -/

structure PollError where
deriving DecidableEq

instance exceptDecEq {ε α : Type} [DecidableEq ε] [DecidableEq α] :
    DecidableEq (Except ε α) := fun a b =>
  match a, b with
  | Except.error e, Except.error f =>
    if h : e = f then isTrue (by rw [h])
    else isFalse (by intro hc; injection hc; contradiction)
  | Except.error _, Except.ok _ => isFalse (by intro hc; exact Except.noConfusion hc)
  | Except.ok _, Except.error _ => isFalse (by intro hc; exact Except.noConfusion hc)
  | Except.ok x, Except.ok y =>
    if h : x = y then isTrue (by rw [h])
    else isFalse (by intro hc; injection hc; contradiction)

structure WatchTargetM where
  /-- value of the source's `repeat` flag (renamed: `repeat` is reserved in Lean). -/
  repeats : Bool
  /-- value of `elem.time_left` at this sweep, scaled to an integer. -/
  timeLeft : Nat
  /-- outcome of `elem.get_new_events()` at this sweep. -/
  pollResult : Except PollError (List Nat)
deriving DecidableEq

/-- The `for elem in self.target_events_watch_data` loop: per input target,
whether `get_new_events` was reached, whether a callback worker was
spawned (entries found), and whether an exception escaped the loop. -/
def pollPhase : List WatchTargetM → List Bool × List Bool × Bool
  | [] => ([], [], false)
  | t :: rest =>
    if 0 < t.timeLeft then
      let r := pollPhase rest
      (false :: r.1, false :: r.2.1, r.2.2)
    else
      match t.pollResult with
      | Except.error _ =>
        (true :: rest.map (fun _ => false), false :: rest.map (fun _ => false), true)
      | Except.ok evs =>
        let r := pollPhase rest
        (true :: r.1, (!evs.isEmpty) :: r.2.1, r.2.2)

structure SweepResult where
  /-- per input target: was its filter polled this sweep. -/
  polled : List Bool
  /-- per input target: was a callback worker spawned this sweep. -/
  dispatched : List Bool
  /-- did an exception escape the `for` loop (killing the thread after
  the `finally` block runs). -/
  errored : Bool
  /-- the target list after the `finally` filter
  `list(filter(lambda x: x.repeat, ...))`. -/
  survivors : List WatchTargetM
deriving DecidableEq

/-- One full pass of the `while` body: the `for` loop, then the `finally`
filter (which runs whether or not the loop raised). -/
def sweepOnce (targets : List WatchTargetM) : SweepResult :=
  let r := pollPhase targets
  { polled := r.1
    dispatched := r.2.1
    errored := r.2.2
    survivors := targets.filter (fun t => t.repeats) }

/-! ## Stop/join protocol: `EventWatcher.stop` and the loop exit path

The watcher thread tracks spawned callback workers in `workers_list`,
pruning completed ones each sweep (`filter(lambda x: x.is_alive(), ...)`),
and joins the survivors after the `while` loop exits normally.  If an
exception escapes a sweep the thread dies without reaching the join loop.
`stop(wait=True)` joins the watcher thread when it is alive, so it
returns when the watcher thread has terminated. -/

structure DispatchSweep where
  /-- worker ids spawned during this sweep. -/
  spawns : List Nat
  /-- worker ids whose callbacks have completed by this sweep's prune. -/
  completes : List Nat
  /-- an exception escaped this sweep's `for` loop. -/
  raisesErr : Bool
deriving DecidableEq

/-- Run the watcher thread over a script of sweeps, tracking
`workers_list` (`alive`).  Returns the workers still alive when the
thread reaches its exit point, and whether it died from an exception
(skipping the join loop). -/
def runSweeps : List DispatchSweep → List Nat → List Nat × Bool
  | [], alive => (alive, false)
  | s :: rest, alive =>
    let alive1 := (alive ++ s.spawns).filter (fun w => !(s.completes.contains w))
    if s.raisesErr then (alive1, true) else runSweeps rest alive1

/-- Workers still running after `stop(wait=True)` returns: on a normal
exit the thread joins every worker in `workers_list` before terminating
(so none survive the stop); if the thread died, `stop` finds it not
alive, skips the join, and the live workers keep running. -/
def outstandingAfterStop (script : List DispatchSweep) : List Nat :=
  let r := runSweeps script []
  if r.2 then r.1 else []

/-! ## Subscription registration: `EventWatcher.add_event_callback` -/

structure EventCallbackM where
  /-- result of `callable(callback)`. -/
  callableB : Bool
deriving DecidableEq

structure WatchEntryM where
  cb : EventCallbackM
  delay : ℚ
  repeats : Bool
deriving DecidableEq

structure WatcherStateM where
  hasStarted : Bool
  threadStarted : Bool
  targets : List WatchEntryM
deriving DecidableEq

/-- Model of `EventWatcher._start_threads`. -/
def startThreads (s : WatcherStateM) : WatcherStateM :=
  { s with threadStarted := true, hasStarted := true }

/-- Model of `EventWatcher.add_event_callback`: note that `_start_threads` runs
before the `callable(callback)` check; a `TypeError` (modelled as
`some "TypeError"`) leaves the already-performed mutations in place. -/
def addEventCallback (s : WatcherStateM) (cb : EventCallbackM) (delay : ℚ)
    (rep : Bool) : WatcherStateM × Option String :=
  let s1 := if s.hasStarted = false then startThreads s else s
  if cb.callableB = false then (s1, some "TypeError")
  else
    let d := max delay (1 / 20 : ℚ)
    ({ s1 with targets := s1.targets ++ [{ cb := cb, delay := d, repeats := rep }] }, none)

/-! ## Legacy "ds-note" decoding: `_decode_ds_note` and the per-log
branch of `_decode_logs`

Bytes are modelled as lists of naturals; `log.data`'s hex payload is
modelled already decoded to bytes (`bytes.fromhex(log.data[2:])`), and
selector-table keys are kept as byte strings rather than their hex
rendering (hex encoding is a bijection on byte strings). -/

structure LogM where
  /-- the bytes of `log.topics[0]`. -/
  topic0 : List Nat
  /-- the bytes of `bytes.fromhex(log.data[2:])`. -/
  dataBytes : List Nat
  address : String

structure DsField where
  name : String
  ftype : String
  value : Nat
  decoded : Bool
deriving DecidableEq

structure DecodedEvent where
  name : String
  address : String
  decoded : Bool
  data : List DsField
deriving DecidableEq

structure ContractM where
  /-- the table `contract.selectors`: selector bytes → name. -/
  selectors : List (List Nat × String)
  /-- the function `contract.decode_input`: `none` models a raised `ValueError`. -/
  decodeInputFn : List Nat → Option (String × List Nat)
  /-- the accessor `contract.get_method_object(sel).abi["inputs"]`: (name, type) pairs. -/
  methodInputs : List Nat → List (String × String)

def lookupSelector (sels : List (List Nat × String)) (sel : List Nat) : Option String :=
  (sels.find? (fun p => p.1 == sel)).map (fun p => p.2)

/-- Model of `data.index(selector)`: first offset where the selector bytes occur
in the payload; `none` models the raised `ValueError`. -/
def indexOfSubseq (data pat : List Nat) : Option Nat :=
  (List.range (data.length + 1)).find? (fun i => pat.isPrefixOf (data.drop i))

/-- The dict literal returned by `_decode_ds_note` on success, with
`args = pr.2` zipped against the method object's ABI inputs. -/
def dsNoteRecord (log : LogM) (c : ContractM) (nm : String)
    (pr : String × List Nat) : DecodedEvent :=
  { name := nm
    address := log.address
    decoded := true
    data := (pr.2.zip (c.methodInputs (log.topic0.take 4))).map
      (fun q => { name := q.2.1, ftype := q.2.2, value := q.1, decoded := true }) }

/-- Model of `_decode_ds_note`: `none` models every `return` without a value
(selector absent, nonzero tail bytes, and the caught `ValueError`s).
`log.topic0.take 4` is the source's `selector` and `log.topic0.drop 4`
its `tail`, inlined. -/
def decodeDsNote (log : LogM) (c : ContractM) : Option DecodedEvent :=
  match lookupSelector c.selectors (log.topic0.take 4) with
  | none => none
  | some nm =>
    if (log.topic0.drop 4).sum ≠ 0 then none
    else
      match indexOfSubseq log.dataBytes (log.topic0.take 4) with
      | none => none
      | some i =>
        match c.decodeInputFn (log.dataBytes.drop i) with
        | none => none
        | some pr => some (dsNoteRecord log c nm pr)

/-- The standard-decoding arm of `_decode_logs` for one log:
`eth_event.decode_logs` is an external collaborator, so its outcome is a
parameter; an `EventError` is caught, surfaced as a warning (`true`) and
the log skipped. -/
def standardDecode : Except String (List DecodedEvent) → List DecodedEvent × Bool
  | Except.ok evs => (evs, false)
  | Except.error _ => ([], true)

/-- The per-log branch of `_decode_logs` (lines 458–467): try ds-note
decoding when a contract is available, otherwise — or when it returns
nothing — fall through to standard decoding. -/
def decodeLogEntry (log : LogM) (contractOpt : Option ContractM)
    (standard : Except String (List DecodedEvent)) : List DecodedEvent × Bool :=
  match contractOpt with
  | some c =>
    match decodeDsNote log c with
    | some note => ([note], false)
    | none => standardDecode standard
  | none => standardDecode standard

/-! ## Lemmas about `EventDict` construction -/

theorem buildOrdered_map_name (events : List RawLogEvent) :
    (buildOrdered events).map EventItemS.name = events.map RawLogEvent.name := by
  have h : (EventItemS.name ∘ fun p : Nat × RawLogEvent => mkSingleItem p.1 p.2)
      = RawLogEvent.name ∘ Prod.snd := rfl
  simp only [buildOrdered, List.map_map, h]
  rw [← List.map_map, List.enum_map_snd]

theorem buildOrdered_map_address (events : List RawLogEvent) :
    (buildOrdered events).map EventItemS.address
      = events.map (fun e => some e.address) := by
  have h : (EventItemS.address ∘ fun p : Nat × RawLogEvent => mkSingleItem p.1 p.2)
      = (fun e => some e.address) ∘ Prod.snd := rfl
  simp only [buildOrdered, List.map_map, h]
  rw [← List.map_map, List.enum_map_snd]

theorem buildOrdered_map_records (events : List RawLogEvent) :
    (buildOrdered events).map EventItemS.records
      = events.map (fun e => [e.data]) := by
  have h : (EventItemS.records ∘ fun p : Nat × RawLogEvent => mkSingleItem p.1 p.2)
      = (fun e : RawLogEvent => [e.data]) ∘ Prod.snd := rfl
  simp only [buildOrdered, List.map_map, h]
  rw [← List.map_map, List.enum_map_snd]

theorem buildOrdered_length (events : List RawLogEvent) :
    (buildOrdered events).length = events.length := by
  simp [buildOrdered, List.enum_length]

theorem buildDictAux_entry_spec (all : List EventItemS) :
    ∀ (rest : List EventItemS) (acc : List (String × EventGroupS))
      (p : String × EventGroupS), p ∈ buildDictAux all rest acc →
      p ∈ acc ∨ (p.2 = mkGroup all p.1 ∧ p.1 ∈ rest.map EventItemS.name)
  | [], acc, p, hp => Or.inl hp
  | e :: rest, acc, p, hp => by
    by_cases hc : (acc.map Prod.fst).contains e.name
    · rw [buildDictAux, if_pos hc] at hp
      rcases buildDictAux_entry_spec all rest acc p hp with h | h
      · exact Or.inl h
      · exact Or.inr ⟨h.1, by simp only [List.map_cons]; exact List.mem_cons_of_mem _ h.2⟩
    · rw [buildDictAux, if_neg hc] at hp
      rcases buildDictAux_entry_spec all rest _ p hp with h | h
      · rcases List.mem_append.1 h with h' | h'
        · exact Or.inl h'
        · have hpe : p = (e.name, mkGroup all e.name) := List.mem_singleton.1 h'
          refine Or.inr ⟨?_, ?_⟩
          · rw [hpe]
          · rw [hpe]; simp only [List.map_cons]; exact List.mem_cons_self _ _
      · exact Or.inr ⟨h.1, by simp only [List.map_cons]; exact List.mem_cons_of_mem _ h.2⟩

theorem buildDictAux_keys_mem (all : List EventItemS) :
    ∀ (rest : List EventItemS) (acc : List (String × EventGroupS)) (n : String),
      n ∈ (buildDictAux all rest acc).map Prod.fst ↔
        n ∈ acc.map Prod.fst ∨ n ∈ rest.map EventItemS.name
  | [], acc, n => by simp [buildDictAux]
  | e :: rest, acc, n => by
    by_cases hc : (acc.map Prod.fst).contains e.name
    · rw [buildDictAux, if_pos hc, buildDictAux_keys_mem all rest acc n]
      have he : e.name ∈ acc.map Prod.fst := List.elem_iff.1 hc
      simp only [List.map_cons, List.mem_cons]
      constructor
      · rintro (h | h)
        · exact Or.inl h
        · exact Or.inr (Or.inr h)
      · rintro (h | h | h)
        · exact Or.inl h
        · exact Or.inl (h ▸ he)
        · exact Or.inr h
    · rw [buildDictAux, if_neg hc, buildDictAux_keys_mem all rest _ n]
      simp only [List.map_append, List.map_cons, List.mem_append, List.map_nil,
        List.mem_singleton, List.mem_cons]
      tauto

theorem buildDictAux_keys_nodup (all : List EventItemS) :
    ∀ (rest : List EventItemS) (acc : List (String × EventGroupS)),
      (acc.map Prod.fst).Nodup → ((buildDictAux all rest acc).map Prod.fst).Nodup
  | [], acc, h => h
  | e :: rest, acc, h => by
    by_cases hc : (acc.map Prod.fst).contains e.name
    · rw [buildDictAux, if_pos hc]
      exact buildDictAux_keys_nodup all rest acc h
    · rw [buildDictAux, if_neg hc]
      refine buildDictAux_keys_nodup all rest _ ?_
      have hne : e.name ∉ acc.map Prod.fst := fun hmem => hc (List.elem_iff.2 hmem)
      rw [List.map_append]
      refine List.nodup_append.2 ⟨h, List.nodup_singleton _, fun x hx hx' => ?_⟩
      have hx2 : x = e.name := List.mem_singleton.1 hx'
      exact hne (hx2 ▸ hx)

theorem buildDict_entry_spec (l : List EventItemS) :
    ∀ p ∈ buildDict l, p.2 = mkGroup l p.1 ∧ p.1 ∈ l.map EventItemS.name := by
  intro p hp
  rcases buildDictAux_entry_spec l l [] p hp with h | h
  · exact absurd h (List.not_mem_nil p)
  · exact h

theorem buildDict_keys_mem (l : List EventItemS) (n : String) :
    n ∈ (buildDict l).map Prod.fst ↔ n ∈ l.map EventItemS.name := by
  rw [buildDict, buildDictAux_keys_mem l l [] n]
  simp

theorem buildDict_keys_nodup (l : List EventItemS) :
    ((buildDict l).map Prod.fst).Nodup :=
  buildDictAux_keys_nodup l l [] (by simp)

theorem filter_name_of_ne {m n : String} (hmn : m ≠ n) (l : List EventItemS) :
    (l.filter (fun i => !(i.name == n))).filter (fun i => i.name == m)
      = l.filter (fun i => i.name == m) := by
  rw [List.filter_filter]
  refine List.filter_congr (fun i _ => ?_)
  by_cases h : i.name = m
  · have hn : (i.name == n) = false := by
      refine beq_eq_false_iff_ne.2 ?_
      rw [h]; exact hmn
    simp only [h, beq_self_eq_true, Bool.true_and]
    rw [beq_eq_false_iff_ne.2 hmn]
    rfl
  · have hm : (i.name == m) = false := beq_eq_false_iff_ne.2 h
    simp [hm]

/-- Summing, over any duplicate-free list of names covering exactly the
names occurring in `l`, the number of items of `l` carrying each name,
gives the length of `l`. -/
theorem sum_filter_lengths :
    ∀ (K : List String) (l : List EventItemS), K.Nodup →
      (∀ n, n ∈ K ↔ n ∈ l.map EventItemS.name) →
      (K.map (fun n => (l.filter (fun i => i.name == n)).length)).sum = l.length
  | [], l, _, hcov => by
    have hmap : l.map EventItemS.name = [] := by
      refine List.eq_nil_iff_forall_not_mem.2 (fun n hn => ?_)
      exact absurd ((hcov n).2 hn) (List.not_mem_nil n)
    have hl : l = [] := List.map_eq_nil_iff.1 hmap
    rw [hl]; rfl
  | n :: K, l, hnd, hcov => by
    have hnK : n ∉ K := (List.nodup_cons.1 hnd).1
    have hndK : K.Nodup := (List.nodup_cons.1 hnd).2
    have hsplit : l.length = (l.filter (fun i : EventItemS => i.name == n)).length
        + (l.filter (fun i : EventItemS => !(i.name == n))).length :=
      List.length_eq_length_filter_add _
    set l' := l.filter (fun i => !(i.name == n)) with hl'
    have hcongr : K.map (fun m => (l.filter (fun i => i.name == m)).length)
        = K.map (fun m => (l'.filter (fun i => i.name == m)).length) := by
      refine List.map_congr_left (fun m hm => ?_)
      have hmn : m ≠ n := fun h => hnK (h ▸ hm)
      rw [hl', filter_name_of_ne hmn]
    have hcov' : ∀ m, m ∈ K ↔ m ∈ l'.map EventItemS.name := by
      intro m
      constructor
      · intro hm
        have hmn : m ≠ n := fun h => hnK (h ▸ hm)
        have hml : m ∈ l.map EventItemS.name := (hcov m).1 (List.mem_cons_of_mem _ hm)
        rcases List.mem_map.1 hml with ⟨i, hi, hname⟩
        refine List.mem_map.2 ⟨i, ?_, hname⟩
        refine List.mem_filter.2 ⟨hi, ?_⟩
        have : (i.name == n) = false := by
          refine beq_eq_false_iff_ne.2 ?_
          rw [hname]; exact hmn
        simp [this]
      · intro hm
        rcases List.mem_map.1 hm with ⟨i, hi, hname⟩
        have hi' := List.mem_filter.1 hi
        have hin : i.name ≠ n := by
          intro h
          rw [h] at hi'
          simp at hi'
        have hml : m ∈ l.map EventItemS.name := List.mem_map.2 ⟨i, hi'.1, hname⟩
        rcases List.mem_cons.1 ((hcov m).2 hml) with h | h
        · exact absurd (h ▸ hname) hin
        · exact h
    have ih := sum_filter_lengths K l' hndK hcov'
    rw [List.map_cons, List.sum_cons, hcongr, ih, hsplit]

theorem buildDict_sum (l : List EventItemS) :
    ((buildDict l).map (fun p => p.2.items.length)).sum = l.length := by
  have h1 : (buildDict l).map (fun p => p.2.items.length)
      = (buildDict l).map (fun p => (l.filter (fun i => i.name == p.1)).length) := by
    refine List.map_congr_left (fun p hp => ?_)
    rw [(buildDict_entry_spec l p hp).1]
    rfl
  have h2 : (buildDict l).map (fun p => (l.filter (fun i => i.name == p.1)).length)
      = ((buildDict l).map Prod.fst).map
          (fun n => (l.filter (fun i => i.name == n)).length) := by
    rw [List.map_map]
    rfl
  rw [h1, h2]
  exact sum_filter_lengths ((buildDict l).map Prod.fst) l (buildDict_keys_nodup l)
    (fun n => buildDict_keys_mem l n)

/-- Claim C3: for any input list of N decoded event records, the constructed
`EventDict` has length N, its ordered view lists the input records in
input order (names, addresses and data preserved position by position),
and the name-keyed groups partition the records: the group record counts
sum to N. -/
theorem eventDict_construction_spec (events : List RawLogEvent) :
    edLen (mkEventDict events) = events.length ∧
    (mkEventDict events).ordered.map EventItemS.name = events.map RawLogEvent.name ∧
    (mkEventDict events).ordered.map EventItemS.address
      = events.map (fun e => some e.address) ∧
    (mkEventDict events).ordered.map EventItemS.records
      = events.map (fun e => [e.data]) ∧
    ((mkEventDict events).dict.map (fun p => p.2.items.length)).sum = events.length := by
  refine ⟨?_, ?_, ?_, ?_, ?_⟩
  · exact buildOrdered_length events
  · exact buildOrdered_map_name events
  · exact buildOrdered_map_address events
  · exact buildOrdered_map_records events
  · rw [show (mkEventDict events).dict = buildDict (buildOrdered events) from rfl,
      buildDict_sum, buildOrdered_length]

def evC6 : RawLogEvent := { name := "A", address := "0xa", data := [("x", "1")] }

/-- Claim C6 counterexample: the claimed invariant "`address` is non-null iff
the group holds exactly one record" is false.  For a single fired event,
the name-keyed group holds exactly one record yet its address is `None`
(`EventDict.__init__` always passes `None` as the group address). -/
theorem eventGroup_address_iff_cex :
    ¬ (∀ events : List RawLogEvent,
        (∀ it ∈ (mkEventDict events).ordered,
          it.address.isSome = true ↔ it.records.length = 1) ∧
        (∀ p ∈ (mkEventDict events).dict,
          p.2.address.isSome = true ↔ p.2.items.length = 1)) := by
  intro h
  have h2 := (h [evC6]).2 ("A", mkGroup (buildOrdered [evC6]) "A") (by decide)
  have h3 : (mkGroup (buildOrdered [evC6]) "A").address.isSome = true :=
    h2.mpr (by decide)
  simp [mkGroup] at h3

/-- Claim C6 amended: position-indexed items always hold exactly one record and
carry a non-null address; name-keyed groups always carry a null address
and hold at least one record.  Hence a non-null address implies exactly
one record, but a name-keyed group for a name that fired once holds
exactly one record with a null address. -/
theorem eventGroup_address_amended (events : List RawLogEvent) :
    (∀ it ∈ (mkEventDict events).ordered,
      (∃ a, it.address = some a) ∧ it.records.length = 1) ∧
    (∀ p ∈ (mkEventDict events).dict,
      p.2.address = none ∧ 0 < p.2.items.length) := by
  constructor
  · intro it hit
    rcases List.mem_map.1 hit with ⟨p, _, hp⟩
    rw [← hp]
    exact ⟨⟨p.2.address, rfl⟩, rfl⟩
  · intro p hp
    rcases buildDict_entry_spec (buildOrdered events) p hp with ⟨hgrp, hname⟩
    refine ⟨by rw [hgrp]; rfl, ?_⟩
    rcases List.mem_map.1 hname with ⟨i, hi, hieq⟩
    have himem : i ∈ (buildOrdered events).filter (fun j => j.name == p.1) :=
      List.mem_filter.2 ⟨hi, by simp [hieq]⟩
    have hne : (mkGroup (buildOrdered events) p.1).items ≠ [] := by
      intro hnil
      rw [show (mkGroup (buildOrdered events) p.1).items
        = (buildOrdered events).filter (fun j => j.name == p.1) from rfl] at hnil
      rw [hnil] at himem
      exact List.not_mem_nil i himem
    rw [hgrp]
    exact List.length_pos.2 hne

/-- Witness for `eventGroup_address_amended` at a concrete input. -/
theorem eventGroup_address_amended_witness :
    (∃ a, (mkSingleItem 0 evC6).address = some a) ∧
      (mkSingleItem 0 evC6).records.length = 1 :=
  (eventGroup_address_amended [evC6]).1 (mkSingleItem 0 evC6) (by decide)

/-- Claim C10: when the first record of an `_EventItem` stores a field only
under the `"(indexed)"`-suffixed key, string indexing finds it through
the suffixed variant, while the membership test — which consults only the
raw keys of the first record — reports `False`. -/
theorem eventItem_indexed_key_divergence (it : EventItemS) (r : Rec)
    (rest : List Rec) (key v : String) (h1 : it.records = r :: rest)
    (h2 : recLookup r key = none)
    (h3 : recLookup r (key ++ " (indexed)") = some v) :
    eventItemGetStr it key = some v ∧ eventItemContainsStr it key = false := by
  constructor
  · rw [eventItemGetStr, h1]
    show (match recLookup r key with
      | some w => some w
      | none => recLookup r (key ++ " (indexed)")) = some v
    rw [h2, h3]
  · rw [eventItemContainsStr, h1]
    show (recLookup r key).isSome = false
    rw [h2]
    rfl

def itC10 : EventItemS :=
  { name := "A", address := some "0xa", records := [[("f (indexed)", "7")]], pos := [0] }

/-- Witness for `eventItem_indexed_key_divergence` at a concrete input. -/
theorem eventItem_indexed_key_divergence_witness :
    eventItemGetStr itC10 "f" = some "7" ∧ eventItemContainsStr itC10 "f" = false :=
  eventItem_indexed_key_divergence itC10 [("f (indexed)", "7")] [] "f" "7"
    rfl rfl rfl

/-! ## Lemmas about the topic registry merge -/

theorem lookupTopic_append_single_ne (R : TopicMap) (k k' : TopicKey)
    (v : TopicDesc) (h : k' ≠ k) :
    lookupTopic (R ++ [(k, v)]) k' = lookupTopic R k' := by
  rw [lookupTopic, List.find?_append]
  have hk : ((k, v).1 == k') = false := beq_eq_false_iff_ne.2 (fun he => h he.symm)
  cases hfind : R.find? (fun p => p.1 == k') with
  | none =>
    rw [lookupTopic, hfind]
    simp [List.find?_cons, hk]
  | some d =>
    rw [lookupTopic, hfind]
    rfl

theorem lookupTopic_append_single_self (R : TopicMap) (k : TopicKey)
    (v : TopicDesc) (h : lookupTopic R k = none) :
    lookupTopic (R ++ [(k, v)]) k = some v := by
  have hfind : R.find? (fun p => p.1 == k) = none := by
    rcases hf : R.find? (fun p => p.1 == k) with _ | d
    · exact hf
    · rw [lookupTopic, hf] at h
      exact absurd h (by simp)
  rw [lookupTopic, List.find?_append, hfind]
  simp [List.find?_cons]

theorem mergeTopicEntry_of_none (R : TopicMap) (k : TopicKey) (v : TopicDesc)
    (h : lookupTopic R k = none) : mergeTopicEntry R k v = R ++ [(k, v)] := by
  rw [mergeTopicEntry, h]

theorem mergeTopicEntry_of_some (R : TopicMap) (k : TopicKey) (v d : TopicDesc)
    (h : lookupTopic R k = some d) :
    mergeTopicEntry R k v
      = if d = v then R else if hasIndexedInput d = true then R else setTopic R k v := by
  rw [mergeTopicEntry, h]

theorem lookupTopic_setTopic_ne (R : TopicMap) (k k' : TopicKey)
    (v : TopicDesc) (h : k' ≠ k) :
    lookupTopic (setTopic R k v) k' = lookupTopic R k' := by
  induction R with
  | nil => rfl
  | cons a R ih =>
    rw [setTopic, List.map_cons]
    by_cases ha : a.1 = k
    · have hbeq : (a.1 == k) = true := beq_iff_eq.2 ha
      rw [hbeq]
      have h1 : ((k, v).1 == k') = false := beq_eq_false_iff_ne.2 (fun he => h he.symm)
      have h2 : (a.1 == k') = false := by
        refine beq_eq_false_iff_ne.2 (fun he => ?_)
        exact h (he ▸ ha.symm ▸ rfl)
      rw [if_pos rfl]
      rw [lookupTopic, List.find?_cons, h1, lookupTopic, List.find?_cons, h2]
      exact ih
    · have hbeq : (a.1 == k) = false := beq_eq_false_iff_ne.2 ha
      rw [hbeq, if_neg (by simp)]
      by_cases ha' : a.1 = k'
      · have hb : (a.1 == k') = true := beq_iff_eq.2 ha'
        rw [lookupTopic, List.find?_cons, hb, lookupTopic, List.find?_cons, hb]
      · have hb : (a.1 == k') = false := beq_eq_false_iff_ne.2 ha'
        rw [lookupTopic, List.find?_cons, hb, lookupTopic, List.find?_cons, hb]
        exact ih

theorem lookupTopic_setTopic_self (R : TopicMap) (k : TopicKey)
    (v d : TopicDesc) (h : lookupTopic R k = some d) :
    lookupTopic (setTopic R k v) k = some v := by
  induction R with
  | nil => exact absurd h (by rw [lookupTopic]; simp)
  | cons a R ih =>
    rw [setTopic, List.map_cons]
    by_cases ha : a.1 = k
    · have hbeq : (a.1 == k) = true := beq_iff_eq.2 ha
      rw [hbeq, if_pos rfl, lookupTopic, List.find?_cons]
      have hkk : ((k, v).1 == k) = true := beq_iff_eq.2 rfl
      rw [hkk]
      rfl
    · have hbeq : (a.1 == k) = false := beq_eq_false_iff_ne.2 ha
      rw [hbeq, if_neg (by simp)]
      rw [lookupTopic, List.find?_cons, hbeq]
      rw [lookupTopic, List.find?_cons, hbeq] at h
      exact ih h

theorem mergeTopicEntry_lookup_ne (R : TopicMap) (k k' : TopicKey)
    (v : TopicDesc) (h : k' ≠ k) :
    lookupTopic (mergeTopicEntry R k v) k' = lookupTopic R k' := by
  cases hl : lookupTopic R k with
  | none =>
    rw [mergeTopicEntry_of_none R k v hl]
    exact lookupTopic_append_single_ne R k k' v h
  | some d =>
    rw [mergeTopicEntry_of_some R k v d hl]
    by_cases hd : d = v
    · rw [if_pos hd]
    · rw [if_neg hd]
      by_cases hi : hasIndexedInput d
      · rw [if_pos hi]
      · rw [if_neg hi]
        exact lookupTopic_setTopic_ne R k k' v h

/-- After one merge step for `(k, v)`, key `k` is bound to `v` itself or
to a descriptor with indexed inputs that was kept. -/
theorem mergeTopicEntry_lookup_self (R : TopicMap) (k : TopicKey) (v : TopicDesc) :
    ∃ w, lookupTopic (mergeTopicEntry R k v) k = some w ∧
      (w = v ∨ hasIndexedInput w = true) := by
  cases hl : lookupTopic R k with
  | none =>
    rw [mergeTopicEntry_of_none R k v hl]
    exact ⟨v, lookupTopic_append_single_self R k v hl, Or.inl rfl⟩
  | some d =>
    rw [mergeTopicEntry_of_some R k v d hl]
    by_cases hd : d = v
    · rw [if_pos hd]
      exact ⟨d, hl, Or.inl hd⟩
    · rw [if_neg hd]
      by_cases hi : hasIndexedInput d
      · rw [if_pos hi]
        exact ⟨d, hl, Or.inr hi⟩
      · rw [if_neg hi]
        exact ⟨v, lookupTopic_setTopic_self R k v d hl, Or.inl rfl⟩

/-- A merge step whose key is already bound to the incoming descriptor,
or to a kept indexed descriptor, changes nothing. -/
theorem mergeTopicEntry_stable (R : TopicMap) (k : TopicKey) (v w : TopicDesc)
    (hl : lookupTopic R k = some w) (hw : w = v ∨ hasIndexedInput w = true) :
    mergeTopicEntry R k v = R := by
  rw [mergeTopicEntry_of_some R k v w hl]
  by_cases hd : w = v
  · rw [if_pos hd]
  · rw [if_neg hd]
    rcases hw with h | h
    · exact absurd h hd
    · rw [if_pos h]

theorem mergeTopicMap_lookup_frame :
    ∀ (tm : TopicMap) (R : TopicMap) (k : TopicKey),
      k ∉ tm.map Prod.fst →
      lookupTopic (mergeTopicMap R tm) k = lookupTopic R k
  | [], _, _, _ => rfl
  | (k', v') :: tm, R, k, hk => by
    have hne : k ≠ k' := by
      intro he
      exact hk (by rw [List.map_cons]; exact he ▸ List.mem_cons_self _ _)
    have htl : k ∉ tm.map Prod.fst := by
      intro hmem
      exact hk (by rw [List.map_cons]; exact List.mem_cons_of_mem _ hmem)
    show lookupTopic (mergeTopicMap (mergeTopicEntry R k' v') tm) k = lookupTopic R k
    rw [mergeTopicMap_lookup_frame tm _ k htl]
    exact mergeTopicEntry_lookup_ne R k' k v' hne

/-- No merge deletes an entry, and a stored descriptor with an indexed
input survives every merge unchanged. -/
theorem mergeTopicMap_preserves :
    ∀ (tm : TopicMap) (R : TopicMap) (k : TopicKey) (d : TopicDesc),
      lookupTopic R k = some d →
      ∃ d', lookupTopic (mergeTopicMap R tm) k = some d' ∧
        (hasIndexedInput d = true → d' = d)
  | [], _, _, d, h => ⟨d, h, fun _ => rfl⟩
  | (k', v') :: tm, R, k, d, h => by
    show ∃ d', lookupTopic (mergeTopicMap (mergeTopicEntry R k' v') tm) k = some d' ∧
      (hasIndexedInput d = true → d' = d)
    by_cases hk : k = k'
    · subst hk
      rw [mergeTopicEntry_of_some R k v' d h]
      by_cases hd : d = v'
      · rw [if_pos hd]
        exact mergeTopicMap_preserves tm R k d h
      · rw [if_neg hd]
        by_cases hi : hasIndexedInput d
        · rw [if_pos hi]
          exact mergeTopicMap_preserves tm R k d h
        · rw [if_neg hi]
          have hset : lookupTopic (setTopic R k v') k = some v' :=
            lookupTopic_setTopic_self R k v' d h
          rcases mergeTopicMap_preserves tm (setTopic R k v') k v' hset with ⟨d', hd', _⟩
          exact ⟨d', hd', fun hcontra => absurd hcontra hi⟩
    · have hl : lookupTopic (mergeTopicEntry R k' v') k = some d := by
        rw [mergeTopicEntry_lookup_ne R k' k v' hk]
        exact h
      exact mergeTopicMap_preserves tm _ k d hl

/-- Merging the same topic map twice is the same as merging it once. -/
theorem mergeTopicMap_idem :
    ∀ (tm : TopicMap) (R : TopicMap), (tm.map Prod.fst).Nodup →
      mergeTopicMap (mergeTopicMap R tm) tm = mergeTopicMap R tm
  | [], _, _ => rfl
  | (k, v) :: tm, R, hnd => by
    have hk : k ∉ tm.map Prod.fst :=
      (List.nodup_cons.1 (by rw [List.map_cons] at hnd; exact hnd)).1
    have hnd' : (tm.map Prod.fst).Nodup :=
      (List.nodup_cons.1 (by rw [List.map_cons] at hnd; exact hnd)).2
    show mergeTopicMap
        (mergeTopicEntry (mergeTopicMap (mergeTopicEntry R k v) tm) k v) tm
      = mergeTopicMap (mergeTopicEntry R k v) tm
    rcases mergeTopicEntry_lookup_self R k v with ⟨w, hw1, hw2⟩
    have hlk : lookupTopic (mergeTopicMap (mergeTopicEntry R k v) tm) k = some w := by
      rw [mergeTopicMap_lookup_frame tm _ k hk]
      exact hw1
    rw [mergeTopicEntry_stable _ k v w hlk hw2]
    exact mergeTopicMap_idem tm (mergeTopicEntry R k v) hnd'

theorem getTopicsRun_fst (t tm : TopicMap) (ok : Bool) :
    (getTopicsRun t tm ok).1 = mergeTopicMap t tm := by
  rw [getTopicsRun]
  by_cases h : mergeTopicMap t tm = t
  · rw [if_pos h, h]
  · rw [if_neg h]
    cases ok
    · rfl
    · rfl

/-- Claim C2: merging the same ABI's topic map twice through `_get_topics`
leaves the registry exactly as after the first merge; no merge deletes a
stored entry; and a stored descriptor with an indexed input is never
replaced by a non-identical descriptor.  The `Nodup` hypothesis records
that `eth_event.get_topic_map` returns a Python dict, whose keys are
distinct. -/
theorem topicRegistry_merge_idem_preserving (reg tm : TopicMap)
    (ok1 ok2 : Bool) (hnd : (tm.map Prod.fst).Nodup) :
    (getTopicsRun (getTopicsRun reg tm ok1).1 tm ok2).1 = (getTopicsRun reg tm ok1).1 ∧
    (∀ k d, lookupTopic reg k = some d →
      ∃ d', lookupTopic (getTopicsRun reg tm ok1).1 k = some d') ∧
    (∀ k d, lookupTopic reg k = some d → hasIndexedInput d = true →
      lookupTopic (getTopicsRun reg tm ok1).1 k = some d) := by
  refine ⟨?_, ?_, ?_⟩
  · rw [getTopicsRun_fst reg tm ok1, getTopicsRun_fst _ tm ok2]
    exact mergeTopicMap_idem tm reg hnd
  · intro k d hd
    rw [getTopicsRun_fst reg tm ok1]
    rcases mergeTopicMap_preserves tm reg k d hd with ⟨d', hd', _⟩
    exact ⟨d', hd'⟩
  · intro k d hd hidx
    rw [getTopicsRun_fst reg tm ok1]
    rcases mergeTopicMap_preserves tm reg k d hd with ⟨d', hd', hkeep⟩
    rw [hd', hkeep hidx]

def descIdxC2 : TopicDesc :=
  { name := "Transfer"
    inputs := [{ name := "src", type := "address", indexed := true }] }

def descPlainC2 : TopicDesc :=
  { name := "Transfer"
    inputs := [{ name := "src", type := "address", indexed := false }] }

def descNewC2 : TopicDesc :=
  { name := "Approval", inputs := [] }

def regC2 : TopicMap := [("0xaa", descIdxC2)]

def tmC2 : TopicMap := [("0xaa", descPlainC2), ("0xbb", descNewC2)]

/-- Witness for `topicRegistry_merge_idem_preserving` at a concrete
registry and topic map: the second merge changes nothing and the stored
indexed descriptor survives unchanged. -/
theorem topicRegistry_merge_idem_preserving_witness :
    (getTopicsRun (getTopicsRun regC2 tmC2 true).1 tmC2 true).1
        = (getTopicsRun regC2 tmC2 true).1 ∧
      lookupTopic (getTopicsRun regC2 tmC2 true).1 "0xaa" = some descIdxC2 :=
  ⟨(topicRegistry_merge_idem_preserving regC2 tmC2 true true (by decide)).1,
    (topicRegistry_merge_idem_preserving regC2 tmC2 true true (by decide)).2.2
      "0xaa" descIdxC2 (by decide) (by decide)⟩

/-- Claim C5 counterexample: a failure while persisting the snapshot IS
propagated to the caller of `_get_topics` — there is no handler around
`json.dump`, so a registry-changing merge with a failing dump raises. -/
theorem topicRegistry_persist_failure_cex :
    (getTopicsRun [] [("0xcc", descNewC2)] false).2 = Except.error {} := by
  decide

/-- Claim C5 amended: a persistence failure propagates to the caller as an
exception, but the in-memory registry state after the call is already
the same as if persistence had succeeded (the `_topics` update happens
before the dump). -/
theorem topicRegistry_persist_failure_amended (topics tm : TopicMap) :
    (getTopicsRun topics tm false).1 = (getTopicsRun topics tm true).1 ∧
    (mergeTopicMap topics tm ≠ topics →
      (getTopicsRun topics tm false).2 = Except.error {}) := by
  constructor
  · rw [getTopicsRun_fst, getTopicsRun_fst]
  · intro hne
    rw [getTopicsRun, if_neg hne, if_neg (by simp)]

/-- Witness for `topicRegistry_persist_failure_amended` at a concrete
registry and topic map. -/
theorem topicRegistry_persist_failure_amended_witness :
    (getTopicsRun [] [("0xcc", descNewC2)] false).1
        = (getTopicsRun [] [("0xcc", descNewC2)] true).1 ∧
      (getTopicsRun [] [("0xcc", descNewC2)] false).2 = Except.error {} :=
  ⟨(topicRegistry_persist_failure_amended [] [("0xcc", descNewC2)]).1,
    (topicRegistry_persist_failure_amended [] [("0xcc", descNewC2)]).2 (by decide)⟩

/-! ## Watcher sweep theorems (C1, C7) -/

theorem pollPhase_lengths : ∀ targets : List WatchTargetM,
    (pollPhase targets).1.length = targets.length ∧
      (pollPhase targets).2.1.length = targets.length
  | [] => ⟨rfl, rfl⟩
  | t :: rest => by
    rcases pollPhase_lengths rest with ⟨h1, h2⟩
    rw [pollPhase]
    by_cases hc : 0 < t.timeLeft
    · rw [if_pos hc]
      exact ⟨by simpa using h1, by simpa using h2⟩
    · rw [if_neg hc]
      cases t.pollResult with
      | error e => simp
      | ok evs => exact ⟨by simpa using h1, by simpa using h2⟩

def tC1 : WatchTargetM := { repeats := false, timeLeft := 1, pollResult := Except.ok [] }

/-- Claim C1 counterexample: a non-repeating target whose cooldown has not
elapsed is never polled during the sweep (so its callback has not fired),
yet the `finally` filter drops it from the target set — it is removed
*before* having fired, contradicting the claim. -/
theorem watcher_nonrepeat_drop_cex :
    (sweepOnce [tC1]).polled = [false] ∧ (sweepOnce [tC1]).dispatched = [false] ∧
      tC1 ∉ (sweepOnce [tC1]).survivors := by
  decide

/-- Claim C1 amended: at the end of every sweep the `finally` filter removes
every `repeat=False` target unconditionally — whether or not its callback
has fired — and keeps every `repeat=True` target; each target is polled
at most once per sweep (one poll/dispatch slot per target). -/
theorem watcher_nonrepeat_drop_amended (targets : List WatchTargetM)
    (t : WatchTargetM) (ht : t ∈ targets) :
    (t.repeats = false → t ∉ (sweepOnce targets).survivors) ∧
    (t.repeats = true → t ∈ (sweepOnce targets).survivors) ∧
    (sweepOnce targets).polled.length = targets.length ∧
    (sweepOnce targets).dispatched.length = targets.length := by
  refine ⟨?_, ?_, (pollPhase_lengths targets).1, (pollPhase_lengths targets).2⟩
  · intro hrep hmem
    have := (List.mem_filter.1 hmem).2
    rw [hrep] at this
    exact absurd this (by simp)
  · intro hrep
    exact List.mem_filter.2 ⟨ht, by rw [hrep]⟩

/-- Witness for `watcher_nonrepeat_drop_amended` at a concrete target. -/
theorem watcher_nonrepeat_drop_amended_witness :
    tC1 ∉ (sweepOnce [tC1]).survivors :=
  (watcher_nonrepeat_drop_amended [tC1] tC1 (by decide)).1 rfl

def tErrC7 : WatchTargetM :=
  { repeats := true, timeLeft := 0, pollResult := Except.error {} }

def tOkC7 : WatchTargetM :=
  { repeats := true, timeLeft := 0, pollResult := Except.ok [1] }

/-- Claim C7 (code bug): with two due targets where the first target's filter
poll raises, the `for` loop is aborted: the second target is never polled
in that sweep, and the exception escapes the sweep (there is no `except`
clause, so after the `finally` block it kills the watcher thread and no
subsequent sweep runs). -/
theorem watch_loop_poll_error_aborts :
    (sweepOnce [tErrC7, tOkC7]).polled = [true, false] ∧
      (sweepOnce [tErrC7, tOkC7]).dispatched = [false, false] ∧
      (sweepOnce [tErrC7, tOkC7]).errored = true := by
  decide

/-! ## Stop/join theorems (C9) -/

theorem runSweeps_no_error : ∀ (script : List DispatchSweep) (alive : List Nat),
    (∀ s ∈ script, s.raisesErr = false) → (runSweeps script alive).2 = false
  | [], _, _ => rfl
  | s :: rest, alive, h => by
    rw [runSweeps]
    have hs : s.raisesErr = false := h s (List.mem_cons_self _ _)
    rw [hs, if_neg (by simp)]
    exact runSweeps_no_error rest _ (fun s' hs' => h s' (List.mem_cons_of_mem _ hs'))

/-- Claim C9 amended: provided no sweep raises an exception (so the watcher
thread reaches its exit path), a blocking stop returns only after every
dispatch unit spawned before the stop request has completed: the thread
joins every still-alive worker before terminating, and no worker —
hence no callback — survives the stop.  (If a sweep raises, the thread
dies before the join loop and this guarantee is lost; see the
counterexample.) -/
theorem watcher_stop_join_amended (script : List DispatchSweep)
    (h : ∀ s ∈ script, s.raisesErr = false) :
    (runSweeps script []).2 = false ∧ outstandingAfterStop script = [] := by
  have hne := runSweeps_no_error script [] h
  refine ⟨hne, ?_⟩
  rw [outstandingAfterStop, hne]
  rfl

def sweepOkC9 : DispatchSweep := { spawns := [0], completes := [], raisesErr := false }

/-- Witness for `watcher_stop_join_amended` at a concrete script. -/
theorem watcher_stop_join_amended_witness :
    outstandingAfterStop [sweepOkC9] = [] :=
  (watcher_stop_join_amended [sweepOkC9] (by decide)).2

def sweepErrC9 : DispatchSweep := { spawns := [0], completes := [], raisesErr := true }

/-- Claim C9 counterexample: if a sweep raises while worker 0's callback is
still running, the watcher thread dies without executing its join loop;
`stop(wait=True)` finds the thread not alive and returns immediately,
while worker 0 — a dispatch unit spawned before the stop request — is
still running its callback after `stop` has returned. -/
theorem watcher_stop_join_cex :
    outstandingAfterStop [sweepErrC9] = [0] := by
  decide

/-! ## Subscription registration theorems (C4) -/

def wIdleC4 : WatcherStateM :=
  { hasStarted := false, threadStarted := false, targets := [] }

def cbBadC4 : EventCallbackM := { callableB := false }

/-- Claim C4 counterexample: registering a non-invocable callback on an idle
watcher does raise the type error, but only after `_start_threads()` has
already run — the polling thread IS started before the failure,
contradicting "no polling-thread state is touched". -/
theorem add_event_callback_starts_thread_cex :
    (addEventCallback wIdleC4 cbBadC4 2 true).2 = some "TypeError" ∧
      (addEventCallback wIdleC4 cbBadC4 2 true).1.threadStarted = true ∧
      (addEventCallback wIdleC4 cbBadC4 2 true).1.hasStarted = true := by
  refine ⟨rfl, rfl, rfl⟩

/-- Claim C4 amended: a non-invocable callback makes `add_event_callback` fail
synchronously with a type error and leaves the target set unchanged, but
the polling thread is started (and marked started) before the check when
the watcher was idle; a running watcher's state is untouched. -/
theorem add_event_callback_bad_callback_amended (s : WatcherStateM)
    (cb : EventCallbackM) (delay : ℚ) (rep : Bool) (hcb : cb.callableB = false) :
    (addEventCallback s cb delay rep).2 = some "TypeError" ∧
    (addEventCallback s cb delay rep).1.targets = s.targets ∧
    (s.hasStarted = false → (addEventCallback s cb delay rep).1.threadStarted = true) ∧
    (s.hasStarted = true → (addEventCallback s cb delay rep).1 = s) := by
  rw [addEventCallback, hcb]
  by_cases h : s.hasStarted = false
  · rw [if_pos h]
    exact ⟨rfl, rfl, fun _ => rfl, fun h' => absurd h' (by rw [h]; simp)⟩
  · rw [if_neg h]
    exact ⟨rfl, rfl, fun h' => absurd h' h, fun _ => rfl⟩

/-- Witness for `add_event_callback_bad_callback_amended` at a concrete
idle watcher state. -/
theorem add_event_callback_bad_callback_amended_witness :
    (addEventCallback wIdleC4 cbBadC4 2 true).2 = some "TypeError" ∧
      (addEventCallback wIdleC4 cbBadC4 2 true).1.targets = wIdleC4.targets :=
  ⟨(add_event_callback_bad_callback_amended wIdleC4 cbBadC4 2 true rfl).1,
    (add_event_callback_bad_callback_amended wIdleC4 cbBadC4 2 true rfl).2.1⟩

/-! ## Legacy decoding theorems (C8) -/

/-- Claim C8: every legacy-decoding failure mode — selector absent from the
selector table, nonzero remaining topic bytes, selector bytes not found
in the payload, or an ABI mismatch while decoding — makes
`_decode_ds_note` return nothing, so `_decode_logs` falls through to
standard decoding for that log exactly as if no contract were known;
no error is raised. -/
theorem decodeDsNote_of_some (log : LogM) (c : ContractM) (nm : String)
    (h : lookupSelector c.selectors (log.topic0.take 4) = some nm) :
    decodeDsNote log c =
      (if (log.topic0.drop 4).sum ≠ 0 then none
       else
        match indexOfSubseq log.dataBytes (log.topic0.take 4) with
        | none => none
        | some i =>
          match c.decodeInputFn (log.dataBytes.drop i) with
          | none => none
          | some pr => some (dsNoteRecord log c nm pr)) := by
  rw [decodeDsNote, h]

theorem ds_note_failure_falls_through (log : LogM) (c : ContractM)
    (std : Except String (List DecodedEvent))
    (hfail : lookupSelector c.selectors (log.topic0.take 4) = none ∨
      (log.topic0.drop 4).sum ≠ 0 ∨
      indexOfSubseq log.dataBytes (log.topic0.take 4) = none ∨
      (∀ i, indexOfSubseq log.dataBytes (log.topic0.take 4) = some i →
        c.decodeInputFn (log.dataBytes.drop i) = none)) :
    decodeDsNote log c = none ∧
    decodeLogEntry log (some c) std = standardDecode std ∧
    decodeLogEntry log (some c) std = decodeLogEntry log none std := by
  have hnone : decodeDsNote log c = none := by
    cases hsel : lookupSelector c.selectors (log.topic0.take 4) with
    | none => rw [decodeDsNote, hsel]
    | some nm =>
      rcases hfail with h1 | h2 | h3 | h4
      · rw [hsel] at h1
        exact absurd h1 (by simp)
      · rw [decodeDsNote_of_some log c nm hsel, if_pos h2]
      · rw [decodeDsNote_of_some log c nm hsel]
        by_cases hs : (log.topic0.drop 4).sum ≠ 0
        · rw [if_pos hs]
        · rw [if_neg hs, h3]
      · rw [decodeDsNote_of_some log c nm hsel]
        by_cases hs : (log.topic0.drop 4).sum ≠ 0
        · rw [if_pos hs]
        · rw [if_neg hs]
          cases hidx : indexOfSubseq log.dataBytes (log.topic0.take 4) with
          | none => rfl
          | some i =>
            show (match c.decodeInputFn (log.dataBytes.drop i) with
              | none => none
              | some pr => some (dsNoteRecord log c nm pr)) = none
            rw [h4 i hidx]
  refine ⟨hnone, ?_, ?_⟩
  · rw [decodeLogEntry, hnone]
  · rw [decodeLogEntry, hnone]
    rfl

def logC8 : LogM := { topic0 := [1, 2, 3, 4, 0, 0], dataBytes := [9, 9], address := "0xd" }

def contractC8 : ContractM :=
  { selectors := [], decodeInputFn := fun _ => none, methodInputs := fun _ => [] }

/-- Witness for `ds_note_failure_falls_through` at a concrete log whose
selector is absent from the (empty) selector table. -/
theorem ds_note_failure_falls_through_witness :
    decodeDsNote logC8 contractC8 = none ∧
      decodeLogEntry logC8 (some contractC8) (Except.ok [])
        = standardDecode (Except.ok []) :=
  ⟨(ds_note_failure_falls_through logC8 contractC8 (Except.ok []) (Or.inl rfl)).1,
    (ds_note_failure_falls_through logC8 contractC8 (Except.ok []) (Or.inl rfl)).2.1⟩

end BrownieEvent
